import Mathlib

/-!
Verification development for the `m3u_dl` repository
(`m3u_downloader.py`, plus the HTML-to-M3U helper script).

The Python source is shallowly embedded: strings are `List Char`,
Python's `str.strip` / `str.split` / the two `re.sub` calls and the one
`re.search` call are translated into executable Lean functions, and the
effectful downloader (`download_file`, `download_m3u`) is modelled as a
pure function from an explicit per-task environment (does the target file
exist, what the HTTP GET returned, whether the filesystem operations
succeed) to the returned outcome together with a trace of the effects it
performed.  Thread interleavings only touch the `self.downloaded` counter,
whose updates are single atomic increments under `self.lock`; the model
therefore exposes the completion order of the workers as an arbitrary
permutation of the task list and proves the relevant facts for every such
order.
-/

/-! ## Python string primitives -/

/-- The whitespace characters recognised by Python's `str.strip` and by
`\s` in a `str` regular expression (ASCII whitespace, the C1 separators,
and the Unicode space characters). -/
def pySpaceChars : List Char :=
  ['\t', '\n', '\x0b', '\x0c', '\r', ' ', '\x1c', '\x1d', '\x1e', '\x1f',
   '\x85', '\xa0', '\u1680', '\u2000', '\u2001', '\u2002', '\u2003', '\u2004',
   '\u2005', '\u2006', '\u2007', '\u2008', '\u2009', '\u200a', '\u2028',
   '\u2029', '\u202f', '\u205f', '\u3000']

def isPySpace (c : Char) : Bool := c ∈ pySpaceChars

/-- `str.lstrip()` : drop leading whitespace. -/
def lstrip (l : List Char) : List Char := l.dropWhile isPySpace

/-- `str.rstrip()` : drop trailing whitespace. -/
def rstrip (l : List Char) : List Char := (l.reverse.dropWhile isPySpace).reverse

/-- `str.strip()` : drop leading and trailing whitespace. -/
def strip (l : List Char) : List Char := rstrip (lstrip l)

/-! ## Playlist parser (`M3UDownloader.parse_m3u`, lines 22-40) -/

/-- The literal `#EXTINF:` tested by `line.startswith('#EXTINF:')`. -/
def extinfMarker : List Char := ['#', 'E', 'X', 'T', 'I', 'N', 'F', ':']

/-- `re.search(r'#EXTINF:[^,]*,(.+)', line).group(1).strip()` for a `line`
that starts with `#EXTINF:`.  On such a line the regex can only match at
position 0: `[^,]*` must stop at the first comma after the 8-character
marker, and `(.+)` then greedily captures everything after that first
comma, requiring at least one character.  `none` models a failed search
(no comma after the marker, or the comma is the last character). -/
def extractTitle (line : List Char) : Option (List Char) :=
  match (line.drop 8).dropWhile (fun c => c ≠ ',') with
  | [] => none
  | _ :: after => if after = [] then none else some (strip after)

/-- The `for line in lines` loop of `parse_m3u`, carrying `current_title`
(`none` models Python's `None`).  Each raw line is first stripped
(`line = line.strip()`, inlined).  The second branch is
`elif line and not line.startswith('#') and current_title:`, where an
empty string `current_title` is falsy. -/
def parseGo : Option (List Char) → List (List Char) → List (List Char × List Char)
  | _, [] => []
  | cur, raw :: ls =>
    if extinfMarker.isPrefixOf (strip raw) then
      match extractTitle (strip raw) with
      | some t => parseGo (some t) ls
      | none => parseGo cur ls
    else
      match cur with
      | some t =>
        if strip raw ≠ [] ∧ (strip raw).head? ≠ some '#' ∧ t ≠ [] then
          (t, strip raw) :: parseGo none ls
        else
          parseGo (some t) ls
      | none => parseGo none ls

/-- `parse_m3u` : `lines = m3u_content.strip().split('\n')`, then the scan
loop starting from `current_title = None`. -/
def parse_m3u (content : List Char) : List (List Char × List Char) :=
  parseGo none ((strip content).splitOn '\n')

/-! ## Filename sanitizer (`M3UDownloader.sanitize_filename`, lines 42-50) -/

/-- The character class of `re.sub(r'[<>:"/\\|?*]', '_', filename)`. -/
def reservedChars : List Char := ['<', '>', ':', '\"', '/', '\\', '|', '?', '*']

/-- `re.sub(r'[<>:"/\\|?*]', '_', filename)` : each reserved character
becomes `_`. -/
def replaceReserved (l : List Char) : List Char :=
  l.map fun c => if c ∈ reservedChars then '_' else c

/-- `re.sub(r'\s+', '_', filename)` : each maximal run of whitespace
becomes a single `_`.  The flag records whether we are inside a run. -/
def collapseWsAux : Bool → List Char → List Char
  | _, [] => []
  | inRun, c :: cs =>
    if isPySpace c then
      if inRun then collapseWsAux true cs else '_' :: collapseWsAux true cs
    else
      c :: collapseWsAux false cs

def collapseWs (l : List Char) : List Char := collapseWsAux false l

/-- `sanitize_filename` : the two `re.sub` passes, then
`if len(filename) > 200: filename = filename[:200]`. -/
def sanitize_filename (l : List Char) : List Char :=
  let f := collapseWs (replaceReserved l)
  if 200 < f.length then f.take 200 else f

/-! ## Fetch worker (`M3UDownloader.download_file`, lines 52-93)

`download_file` is a `try` block whose failure modes are the HTTP GET
(`requests.exceptions.RequestException`, raised by `session.get`, by
`response.raise_for_status()` for a 4xx/5xx status, or by the chunk
iterator) and the filesystem calls (`os.makedirs`, `open`/`write`,
raising `OSError ⊆ Exception`).  Each of these is an input of the
per-task environment `TaskEnv`.  The body is translated into a pure
function returning the effect trace it performed together with
`Except PyExc Bool`; the two `except` clauses then turn any raised
exception into the return value `False`. -/

/-- A raised Python exception, as caught by the two `except` clauses of
`download_file`: `requests.exceptions.RequestException` or any other
`Exception`. -/
inductive PyExc
  | requestExc (msg : List Char)
  | otherExc (msg : List Char)
deriving DecidableEq

/-- The response of `session.get(url, stream=True, timeout=...)` when no
exception was raised: its status code and the chunk sequence produced by
`iter_content(chunk_size=...)`. -/
structure HttpResponse where
  status : Nat
  chunks : List (List Nat)
deriving DecidableEq

/-- The per-task slice of the outside world consumed by one
`download_file` invocation: whether `os.path.exists(filepath)` is true,
what `session.get` does, and whether `os.makedirs` and the chunked write
succeed.  A failed write carries the partial bytes left on disk (the
documented partial-file limitation); no claim depends on them. -/
structure TaskEnv where
  fileExists : Bool
  getResult : Except PyExc HttpResponse
  mkdirResult : Except PyExc Unit
  writeResult : Except (PyExc × List Nat) Unit

/-- An observable side effect of `download_file`: the outbound GET, the
`os.makedirs` call, or a file write. -/
inductive Effect
  | netGet (url : List Char)
  | mkdirEff (dir : List Char)
  | writeEff (path : List Char) (data : List Nat)
deriving DecidableEq

/-- `os.path.join(output_dir, filename)` for a relative `filename`;
paths are opaque tokens in the model. -/
def pathJoin (a b : List Char) : List Char := a ++ '/' :: b

/-- The target path `os.path.join(output_dir, f"{safe_title}.mp3")`. -/
def targetPath (outputDir title : List Char) : List Char :=
  pathJoin outputDir (sanitize_filename title ++ (".mp3".toList))

/-- The `try` block of `download_file` (lines 54-86): existence check,
streaming GET with `raise_for_status()` (which raises `HTTPError`, a
`RequestException`, exactly for statuses in `[400, 600)`), `makedirs`,
chunked write of the non-empty chunks, and the `self.downloaded`
increment on both successful paths.  The returned flag is the increment
(equivalently, the `return True`); the effect list is the performed
trace. -/
def downloadFileBody (title url outputDir : List Char) (env : TaskEnv) :
    List Effect × Except PyExc Bool :=
  if env.fileExists then
    ([], .ok true)
  else
    match env.getResult with
    | .error e => ([.netGet url], .error e)
    | .ok resp =>
      if 400 ≤ resp.status ∧ resp.status < 600 then
        ([.netGet url], .error (.requestExc ("HTTPError".toList)))
      else
        match env.mkdirResult with
        | .error e => ([.netGet url], .error e)
        | .ok _ =>
          match env.writeResult with
          | .error ep =>
            ([.netGet url, .mkdirEff outputDir,
              .writeEff (targetPath outputDir title) ep.2], .error ep.1)
          | .ok _ =>
            ([.netGet url, .mkdirEff outputDir,
              .writeEff (targetPath outputDir title)
                ((resp.chunks.filter (fun c => c ≠ [])).flatten)], .ok true)

/-- `download_file` : the `try` block wrapped in the two `except`
clauses, both of which print and `return False`. -/
def downloadFile (title url outputDir : List Char) (env : TaskEnv) :
    List Effect × Bool :=
  match downloadFileBody title url outputDir env with
  | (effs, .ok b) => (effs, b)
  | (effs, .error _) => (effs, false)

/-- A file system: path to byte content (`none` = no such file). -/
abbrev FS : Type := List Char → Option (List Nat)

/-- How one effect changes the file system (network calls do not; the
model does not track directory metadata). -/
def applyEffect (fs : FS) : Effect → FS
  | .netGet _ => fs
  | .mkdirEff _ => fs
  | .writeEff p d => fun q => if q = p then some d else fs q

def applyEffects (fs : FS) (effs : List Effect) : FS :=
  effs.foldl applyEffect fs

/-! ## Download coordinator (`M3UDownloader.download_m3u`, lines 95-149)

The executor submits one `download_file` task per entry; each task's
result depends only on its own entry and environment.  The
`self.downloaded` counter starts at 0 and is changed only by the
guarded `self.downloaded += 1` inside `download_file`, one atomic
increment per task that returned `True`; `as_completed` observes the
futures in an arbitrary completion order. -/

/-- The effect of one terminal task outcome on `self.downloaded`:
`+1` if the task returned `True`, unchanged otherwise. -/
def coordStep (c : Nat) (res : Bool) : Nat := if res then c + 1 else c

/-- Final value of `self.downloaded` after the outcomes `outs` were
observed, starting from the `self.downloaded = 0` of line 114. -/
def finalDownloaded (outs : List Bool) : Nat := outs.foldl coordStep 0

/-- The outcome (returned flag) of every submitted task, one
`download_file` call per `(entry, environment)` pair. -/
def runOutcomes (outputDir : List Char)
    (tasks : List ((List Char × List Char) × TaskEnv)) : List Bool :=
  tasks.map fun t => (downloadFile t.1.1 t.1.2 outputDir t.2).2

/-- Result of `download_m3u`: either the early `return` on an empty
parse (line 111), or the terminal state after the pool is joined —
the observed outcomes, the final `self.downloaded`, and `self.total`. -/
inductive RunResult
  | noEntries
  | finished (outcomes : List Bool) (downloaded : Nat) (total : Nat)
deriving DecidableEq

/-- `download_m3u`, from playlist text to the terminal state.  The file
read and its UTF-8 → Latin-1 fallback are not modelled: the decoded
text is the input.  `envs` supplies each entry's task environment. -/
def download_m3u (content outputDir : List Char) (envs : List TaskEnv) :
    RunResult :=
  let entries := parse_m3u content
  if entries.isEmpty then .noEntries
  else
    let outs := runOutcomes outputDir (entries.zip envs)
    .finished outs (finalDownloaded outs) entries.length

/-! ## Worker-count validation (`main`, lines 169-174) -/

/-- Numeric value of an ASCII digit. -/
def digitVal (c : Char) : Nat := c.toNat - 48

/-- Digits of a Python integer literal after the first digit: further
digits, with single underscores allowed between digits. -/
def pyDigitsGo (acc : Nat) : List Char → Option Nat
  | [] => some acc
  | '_' :: rest =>
    match rest with
    | [] => none
    | d :: rest2 =>
      if d.isDigit then pyDigitsGo (acc * 10 + digitVal d) rest2 else none
  | c :: rest =>
    if c.isDigit then pyDigitsGo (acc * 10 + digitVal c) rest else none

/-- A nonempty run of ASCII digits with optional single underscores
between digits, as accepted by `int()` after sign removal. -/
def pyDigits : List Char → Option Nat
  | [] => none
  | c :: rest => if c.isDigit then pyDigitsGo (digitVal c) rest else none

/-- `int(s)` for an already-stripped string `s` : optional sign followed
by digits; `none` models a raised `ValueError`.  (Python also accepts
some non-ASCII digits; such inputs are conservatively `none` here, which
only moves them from the clamped case to the default case.) -/
def pyInt? (s : List Char) : Option Int :=
  match s with
  | '+' :: rest => (pyDigits rest).map (fun n => (n : Int))
  | '-' :: rest => (pyDigits rest).map (fun n => -(n : Int))
  | _ => (pyDigits s).map (fun n => (n : Int))

/-- Lines 170-174 of `main`: `workers = input(...).strip()`, then
`workers = int(workers) if workers else 4` and
`workers = max(1, min(workers, 16))` inside `try`, with
`except ValueError: workers = 4`. -/
def validateWorkers (raw : List Char) : Int :=
  let s := strip raw
  match (if s.isEmpty then some (4 : Int) else pyInt? s) with
  | some w => max 1 (min w 16)
  | none => 4

/-! ## Spec-side definition for the title rule (claim C2 only)

Modelled from the spec: "the title [is] after the last top-level comma
(trimmed of whitespace)".  With no quoting structure defined by the
spec, every comma of the line is top-level. -/

/-- Title of an `#EXTINF` line according to the spec's words: the text
after the LAST comma following the marker, trimmed. -/
def specTitleLastComma (line : List Char) : Option (List Char) :=
  let rest := line.drop 8
  if ',' ∈ rest then
    some (strip ((rest.reverse.takeWhile (fun c => c ≠ ',')).reverse))
  else
    none

/-! ## Sanitizer lemmas and claim C4 -/

theorem replaceReserved_not_reserved {l : List Char} :
    ∀ c ∈ replaceReserved l, c ∉ reservedChars := by
  intro c hc
  rcases List.mem_map.1 hc with ⟨a, -, rfl⟩
  split
  · decide
  · assumption

theorem replaceReserved_id : ∀ l : List Char,
    (∀ c ∈ l, c ∉ reservedChars) → replaceReserved l = l
  | [], _ => rfl
  | a :: l, h => by
    have ha : a ∉ reservedChars := h a (List.mem_cons_self a l)
    have ih := replaceReserved_id l (fun c hc => h c (List.mem_cons_of_mem a hc))
    simp only [replaceReserved, List.map_cons] at ih ⊢
    rw [if_neg ha, ih]

theorem collapseWsAux_no_space (l : List Char) :
    ∀ (b : Bool) (c : Char), c ∈ collapseWsAux b l → isPySpace c = false := by
  induction l with
  | nil =>
    intro b c hc
    simp [collapseWsAux] at hc
  | cons a l ih =>
    intro b c hc
    cases ha : isPySpace a with
    | false =>
      simp only [collapseWsAux, ha] at hc
      rcases List.mem_cons.1 hc with rfl | hc2
      · exact ha
      · exact ih false c hc2
    | true =>
      simp only [collapseWsAux, ha, if_true] at hc
      cases b with
      | false =>
        simp only [Bool.false_eq_true, if_false] at hc
        rcases List.mem_cons.1 hc with rfl | hc2
        · decide
        · exact ih true c hc2
      | true =>
        simp only [if_true] at hc
        exact ih true c hc

theorem collapseWsAux_mem (l : List Char) :
    ∀ (b : Bool) (c : Char), c ∈ collapseWsAux b l → c = '_' ∨ c ∈ l := by
  induction l with
  | nil =>
    intro b c hc
    simp [collapseWsAux] at hc
  | cons a l ih =>
    intro b c hc
    cases ha : isPySpace a with
    | false =>
      simp only [collapseWsAux, ha] at hc
      rcases List.mem_cons.1 hc with rfl | hc2
      · right; exact List.mem_cons_self _ _
      · rcases ih false c hc2 with h | h
        · left; exact h
        · right; exact List.mem_cons_of_mem a h
    | true =>
      simp only [collapseWsAux, ha, if_true] at hc
      have sub : c ∈ collapseWsAux true l → c = '_' ∨ c ∈ a :: l := by
        intro hc2
        rcases ih true c hc2 with h | h
        · left; exact h
        · right; exact List.mem_cons_of_mem a h
      cases b with
      | false =>
        simp only [Bool.false_eq_true, if_false] at hc
        rcases List.mem_cons.1 hc with rfl | hc2
        · left; rfl
        · exact sub hc2
      | true =>
        simp only [if_true] at hc
        exact sub hc

theorem collapseWsAux_id (l : List Char) (h : ∀ c ∈ l, isPySpace c = false) :
    ∀ b, collapseWsAux b l = l := by
  induction l with
  | nil => intro b; rfl
  | cons a l ih =>
    intro b
    have ha : isPySpace a = false := h a (List.mem_cons_self a l)
    have ihl := ih (fun c hc => h c (List.mem_cons_of_mem a hc)) false
    simp only [collapseWsAux, ha, Bool.false_eq_true, if_false, ihl]

theorem sanitize_mem (s : List Char) :
    ∀ c ∈ sanitize_filename s, isPySpace c = false ∧ c ∉ reservedChars := by
  intro c hc
  have hf : c ∈ collapseWs (replaceReserved s) := by
    simp only [sanitize_filename] at hc
    by_cases h2 : 200 < (collapseWs (replaceReserved s)).length
    · rw [if_pos h2] at hc
      exact List.take_subset _ _ hc
    · rwa [if_neg h2] at hc
  refine ⟨collapseWsAux_no_space _ false c hf, ?_⟩
  rcases collapseWsAux_mem _ false c hf with rfl | hm
  · decide
  · exact replaceReserved_not_reserved c hm

theorem sanitize_length (s : List Char) : (sanitize_filename s).length ≤ 200 := by
  simp only [sanitize_filename]
  by_cases h : 200 < (collapseWs (replaceReserved s)).length
  · rw [if_pos h]
    simp [List.length_take]
  · rw [if_neg h]
    omega

theorem sanitize_idem (s : List Char) :
    sanitize_filename (sanitize_filename s) = sanitize_filename s := by
  have hmem := sanitize_mem s
  have h1 : replaceReserved (sanitize_filename s) = sanitize_filename s :=
    replaceReserved_id _ (fun c hc => (hmem c hc).2)
  have h2 : collapseWs (replaceReserved (sanitize_filename s)) = sanitize_filename s := by
    rw [h1]
    exact collapseWsAux_id _ (fun c hc => (hmem c hc).1) false
  have h3 : ¬ 200 < (sanitize_filename s).length := by
    have := sanitize_length s
    omega
  calc sanitize_filename (sanitize_filename s)
      = if 200 < (collapseWs (replaceReserved (sanitize_filename s))).length then
          (collapseWs (replaceReserved (sanitize_filename s))).take 200
        else collapseWs (replaceReserved (sanitize_filename s)) := rfl
    _ = sanitize_filename s := by rw [h2, if_neg h3]

/-- C4: `sanitize_filename` is idempotent, its output contains none of
the reserved characters `< > : " / \ | ? *`, and its output length is at
most 200. -/
theorem sanitize_idempotent_safe (s : List Char) :
    sanitize_filename (sanitize_filename s) = sanitize_filename s ∧
    (∀ c ∈ sanitize_filename s, c ∉ reservedChars) ∧
    (sanitize_filename s).length ≤ 200 :=
  ⟨sanitize_idem s, fun c hc => (sanitize_mem s c hc).2, sanitize_length s⟩

/-- Witness for C4 at the concrete input `"a<b c"` (which sanitizes to
`"a_b_c"`), with the membership premise instantiated at `'_'`. -/
theorem sanitize_idempotent_safe_witness :
    sanitize_filename (sanitize_filename ("a<b c".toList)) =
      sanitize_filename ("a<b c".toList) ∧
    '_' ∉ reservedChars ∧
    (sanitize_filename ("a<b c".toList)).length ≤ 200 :=
  ⟨(sanitize_idempotent_safe ("a<b c".toList)).1,
   (sanitize_idempotent_safe ("a<b c".toList)).2.1 '_' (by decide),
   (sanitize_idempotent_safe ("a<b c".toList)).2.2⟩

/-! ## Counter lemmas and claim C6 -/

theorem foldl_coordStep (outs : List Bool) :
    ∀ n : Nat, outs.foldl coordStep n = n + outs.countP (fun b => b) := by
  induction outs with
  | nil => intro n; simp
  | cons a l ih =>
    intro n
    cases a <;> (simp [coordStep, List.countP_cons, ih]; try omega)

theorem finalDownloaded_eq_countP (outs : List Bool) :
    finalDownloaded outs = outs.countP (fun b => b) := by
  simpa using foldl_coordStep outs 0

/-- C6: along any completion order, `self.downloaded` is monotonically
non-decreasing, each terminal task changes it by at most one (by exactly
the guarded increment or nothing), and it never exceeds the number of
submitted tasks, i.e. `self.total`. -/
theorem counter_monotone_bounded (outs : List Bool) (k : Nat) :
    finalDownloaded (outs.take k) ≤ finalDownloaded (outs.take (k + 1)) ∧
    finalDownloaded (outs.take (k + 1)) ≤ finalDownloaded (outs.take k) + 1 ∧
    finalDownloaded (outs.take k) ≤ outs.length ∧
    (∀ (c : Nat) (b : Bool), c ≤ coordStep c b ∧ coordStep c b ≤ c + 1) := by
  have hs : ((outs[k]?).toList).countP (fun b => b) ≤ 1 := by
    cases h : outs[k]? with
    | none => simp
    | some a => cases a <;> simp
  have h1 : finalDownloaded (outs.take (k + 1)) =
      finalDownloaded (outs.take k) + ((outs[k]?).toList).countP (fun b => b) := by
    rw [finalDownloaded_eq_countP, finalDownloaded_eq_countP, List.take_succ,
      List.countP_append]
  have h2 : finalDownloaded (outs.take k) ≤ outs.length := by
    rw [finalDownloaded_eq_countP]
    calc (outs.take k).countP (fun b => b) ≤ (outs.take k).length :=
          List.countP_le_length _
      _ ≤ outs.length := by simp [List.length_take]
  refine ⟨by omega, by omega, h2, ?_⟩
  intro c b
  cases b <;> simp [coordStep]

/-- Witness for C6 at the concrete outcome list `[true, false, true]`
and prefix index 1. -/
theorem counter_monotone_bounded_witness :
    finalDownloaded ([true, false, true].take 1) ≤
      finalDownloaded ([true, false, true].take 2) ∧
    finalDownloaded ([true, false, true].take 1) ≤ [true, false, true].length ∧
    coordStep 5 true ≤ 5 + 1 :=
  ⟨(counter_monotone_bounded [true, false, true] 1).1,
   (counter_monotone_bounded [true, false, true] 1).2.2.1,
   ((counter_monotone_bounded [true, false, true] 1).2.2.2 5 true).2⟩

/-! ## Parser lemmas and claims C2, C7, C10 -/

theorem isPrefixOf_append_self (l y : List Char) : l.isPrefixOf (l ++ y) = true := by
  induction l with
  | nil => simp [List.isPrefixOf]
  | cons a l ih => simp [List.isPrefixOf, ih]

theorem marker_head {l : List Char} (h : extinfMarker.isPrefixOf l = true) :
    l.head? = some '#' := by
  cases l with
  | nil => exact absurd h (by decide)
  | cons a l =>
    simp only [extinfMarker, List.isPrefixOf, Bool.and_eq_true, beq_iff_eq] at h
    rw [List.head?_cons, ← h.1]

theorem dropWhile_comma_append (pre post : List Char) (hpre : ',' ∉ pre) :
    (pre ++ ',' :: post).dropWhile (fun c => c ≠ ',') = ',' :: post := by
  induction pre with
  | nil => simp [List.dropWhile_cons]
  | cons a pre ih =>
    have ha : a ≠ ',' := fun h => hpre (h ▸ List.mem_cons_self a pre)
    have hpre2 : ',' ∉ pre := fun h => hpre (List.mem_cons_of_mem a h)
    rw [List.cons_append, List.dropWhile_cons, if_pos (by simp [ha]), ih hpre2]

theorem drop8_marker (x : List Char) : (extinfMarker ++ x).drop 8 = x := rfl

theorem extractTitle_first_comma (pre post : List Char)
    (hpre : ',' ∉ pre) (hpost : post ≠ []) :
    extractTitle (extinfMarker ++ pre ++ ',' :: post) = some (strip post) := by
  have hd : (extinfMarker ++ pre ++ ',' :: post).drop 8 = pre ++ ',' :: post := by
    rw [List.append_assoc]
    exact drop8_marker _
  simp only [extractTitle, hd, dropWhile_comma_append pre post hpre]
  rw [if_neg hpost]

theorem parseGo_title_step (raw : List Char) (ls : List (List Char))
    (cur : Option (List Char)) (t : List Char)
    (hm : extinfMarker.isPrefixOf (strip raw) = true)
    (ht : extractTitle (strip raw) = some t) :
    parseGo cur (raw :: ls) = parseGo (some t) ls := by
  simp only [parseGo, hm, if_true, ht]

/-- C2 (amended): for an `#EXTINF` line whose stripped form is the
marker, a comma-free segment `pre`, a comma, and a nonempty remainder
`post`, `parse_m3u` takes the title to be `post` — the text after the
FIRST comma — trimmed of whitespace, and continues the scan with that
title pending. -/
theorem title_after_first_comma (raw pre post : List Char)
    (ls : List (List Char)) (cur : Option (List Char))
    (hl : strip raw = extinfMarker ++ pre ++ ',' :: post)
    (hpre : ',' ∉ pre) (hpost : post ≠ []) :
    extractTitle (strip raw) = some (strip post) ∧
    parseGo cur (raw :: ls) = parseGo (some (strip post)) ls := by
  have ht : extractTitle (strip raw) = some (strip post) := by
    rw [hl]
    exact extractTitle_first_comma pre post hpre hpost
  have hm : extinfMarker.isPrefixOf (strip raw) = true := by
    rw [hl, List.append_assoc]
    exact isPrefixOf_append_self _ _
  exact ⟨ht, parseGo_title_step raw ls cur _ hm ht⟩

/-- Witness for the amended C2 at the concrete line `#EXTINF:-1,a,b`
followed by a URL line. -/
theorem title_after_first_comma_witness :
    extractTitle (strip ("#EXTINF:-1,a,b".toList)) = some (strip ("a,b".toList)) ∧
    parseGo none ["#EXTINF:-1,a,b".toList, "http://u".toList] =
      parseGo (some (strip ("a,b".toList))) ["http://u".toList] :=
  title_after_first_comma ("#EXTINF:-1,a,b".toList) ("-1".toList) ("a,b".toList)
    ["http://u".toList] none (by decide) (by decide) (by decide)

/-- C2 counterexample: on the playlist line `#EXTINF:-1,a,b` the code
produces the title `a,b` — the text after the FIRST comma — while the
claim's after-the-last-comma rule yields `b`, a different string. -/
theorem title_last_comma_cex :
    parse_m3u ("#EXTINF:-1,a,b\nhttp://u".toList) =
      [("a,b".toList, "http://u".toList)] ∧
    specTitleLastComma ("#EXTINF:-1,a,b".toList) = some ("b".toList) ∧
    ("a,b".toList : List Char) ≠ "b".toList :=
  ⟨by decide, by decide, by decide⟩

/-- A line that sets `current_title`: its stripped form starts with the
`#EXTINF:` marker and the title regex matches on it. -/
def isTitleLine (raw : List Char) : Prop :=
  extinfMarker.isPrefixOf (strip raw) = true ∧
  (extractTitle (strip raw)).isSome = true

/-- C7: a consumed title line immediately followed by another title line
contributes no entry (the second overwrites the first); a URL-shaped
line with no pending title contributes no entry; and the parser, a
total function, maps the claim's two malformed playlists (title without
URL; URLs without title) to the empty entry list without raising. -/
theorem parser_tolerant (l1 l2 u : List Char) (ls ls2 : List (List Char))
    (cur : Option (List Char)) :
    (isTitleLine l1 → isTitleLine l2 →
      parseGo cur (l1 :: l2 :: ls) = parseGo cur (l2 :: ls)) ∧
    ((strip u).head? ≠ some '#' → parseGo none (u :: ls2) = parseGo none ls2) ∧
    parse_m3u ("#EXTINF:1,A".toList) = [] ∧
    parse_m3u ("http://u\nhttp://v".toList) = [] := by
  refine ⟨?_, ?_, by decide, by decide⟩
  · rintro ⟨hm1, ht1⟩ ⟨hm2, ht2⟩
    rcases Option.isSome_iff_exists.1 ht1 with ⟨t1, ht1e⟩
    rcases Option.isSome_iff_exists.1 ht2 with ⟨t2, ht2e⟩
    rw [parseGo_title_step l1 (l2 :: ls) cur t1 hm1 ht1e,
      parseGo_title_step l2 ls (some t1) t2 hm2 ht2e,
      parseGo_title_step l2 ls cur t2 hm2 ht2e]
  · intro hu
    have hm : extinfMarker.isPrefixOf (strip u) = false := by
      cases h : extinfMarker.isPrefixOf (strip u) with
      | false => rfl
      | true => exact absurd (marker_head h) hu
    simp only [parseGo, hm, Bool.false_eq_true, if_false]

/-- Witness for C7: two adjacent title lines, and a URL line seen with
no pending title. -/
theorem parser_tolerant_witness :
    parseGo none ["#EXTINF:1,A".toList, "#EXTINF:1,B".toList, "http://u".toList] =
      parseGo none ["#EXTINF:1,B".toList, "http://u".toList] ∧
    parseGo none ["http://u".toList] = parseGo none [] :=
  ⟨(parser_tolerant ("#EXTINF:1,A".toList) ("#EXTINF:1,B".toList)
      ("http://u".toList) ["http://u".toList] [] none).1
      ⟨by decide, by decide⟩ ⟨by decide, by decide⟩,
   (parser_tolerant ("#EXTINF:1,A".toList) ("#EXTINF:1,B".toList)
      ("http://u".toList) ["http://u".toList] [] none).2.1 (by decide)⟩

theorem parseGo_wellformed (ls : List (List Char)) :
    ∀ (cur : Option (List Char)) (t u : List Char),
      (t, u) ∈ parseGo cur ls → t ≠ [] ∧ u ≠ [] ∧ u.head? ≠ some '#' := by
  induction ls with
  | nil =>
    intro cur t u h
    simp [parseGo] at h
  | cons raw ls ih =>
    intro cur t u h
    simp only [parseGo] at h
    by_cases hm : extinfMarker.isPrefixOf (strip raw) = true
    · rw [if_pos hm] at h
      cases he : extractTitle (strip raw) with
      | some t1 => rw [he] at h; exact ih _ t u h
      | none => rw [he] at h; exact ih _ t u h
    · rw [if_neg hm] at h
      cases cur with
      | none => exact ih _ t u h
      | some t0 =>
        replace h : (t, u) ∈
            (if strip raw ≠ [] ∧ (strip raw).head? ≠ some '#' ∧ t0 ≠ [] then
              (t0, strip raw) :: parseGo none ls
            else parseGo (some t0) ls) := h
        by_cases hc : strip raw ≠ [] ∧ (strip raw).head? ≠ some '#' ∧ t0 ≠ []
        · rw [if_pos hc] at h
          rcases List.mem_cons.1 h with heq | hmem
          · rw [Prod.mk.injEq] at heq
            obtain ⟨rfl, rfl⟩ := heq
            exact ⟨hc.2.2, hc.1, hc.2.1⟩
          · exact ih _ t u hmem
        · rw [if_neg hc] at h
          exact ih _ t u h

/-- C10: every `(title, url)` pair returned by `parse_m3u` has a
nonempty title and a nonempty URL that does not start with `#`; in
particular the claim's playlist whose `#EXTINF` line has only
whitespace after the comma yields no entry at all. -/
theorem parse_entries_wellformed :
    (∀ (content t u : List Char), (t, u) ∈ parse_m3u content →
      t ≠ [] ∧ u ≠ [] ∧ u.head? ≠ some '#') ∧
    parse_m3u ("#EXTINF:1,   \nhttp://u".toList) = [] := by
  refine ⟨?_, by decide⟩
  intro content t u h
  exact parseGo_wellformed _ _ t u h

/-- Witness for C10 at a concrete two-line playlist. -/
theorem parse_entries_wellformed_witness :
    ("A".toList : List Char) ≠ [] ∧ ("http://u".toList : List Char) ≠ [] ∧
      ("http://u".toList).head? ≠ some '#' :=
  parse_entries_wellformed.1 ("#EXTINF:1,A\nhttp://u".toList) ("A".toList)
    ("http://u".toList) (by decide)

/-! ## Concrete task environments used by witnesses and counterexamples -/

/-- A task whose target file already exists on disk. -/
def envExists : TaskEnv :=
  { fileExists := true, getResult := .error (.requestExc ("unused".toList)),
    mkdirResult := .ok (), writeResult := .ok () }

/-- A task whose HTTP GET raises a connection error. -/
def envRefused : TaskEnv :=
  { fileExists := false, getResult := .error (.requestExc ("refused".toList)),
    mkdirResult := .ok (), writeResult := .ok () }

/-- A task whose HTTP GET returns status 304 (non-2xx, but not a status
`raise_for_status` raises for) with an empty body. -/
def env304 : TaskEnv :=
  { fileExists := false, getResult := .ok { status := 304, chunks := [] },
    mkdirResult := .ok (), writeResult := .ok () }

/-! ## Claim C3: skip-if-exists -/

/-- C3: when the target file already exists, `download_file` returns
`True` immediately (the skip outcome, counted like a success),
performs no effect at all — in particular no network GET — and leaves
every file on disk, the existing target included, unchanged. -/
theorem skip_existing (title url outputDir : List Char) (env : TaskEnv)
    (h : env.fileExists = true) :
    downloadFile title url outputDir env = ([], true) ∧
    (∀ fs : FS, applyEffects fs (downloadFile title url outputDir env).1 = fs) ∧
    Effect.netGet url ∉ (downloadFile title url outputDir env).1 := by
  have hb : downloadFileBody title url outputDir env = ([], .ok true) := by
    unfold downloadFileBody
    rw [if_pos h]
  have hd : downloadFile title url outputDir env = ([], true) := by
    simp only [downloadFile, hb]
  refine ⟨hd, ?_, ?_⟩
  · intro fs
    rw [hd]
    rfl
  · rw [hd]
    simp

/-- Witness for C3 at a concrete existing-file task. -/
theorem skip_existing_witness :
    downloadFile ("A".toList) ("http://u".toList) ("downloads".toList) envExists =
      ([], true) ∧
    applyEffects (fun _ => none)
      (downloadFile ("A".toList) ("http://u".toList) ("downloads".toList)
        envExists).1 = (fun _ => none) :=
  ⟨(skip_existing ("A".toList) ("http://u".toList) ("downloads".toList)
      envExists rfl).1,
   (skip_existing ("A".toList) ("http://u".toList) ("downloads".toList)
      envExists rfl).2.1 (fun _ => none)⟩

/-! ## Claim C5: failure containment -/

theorem downloadFile_catch (title url outputDir : List Char) (env : TaskEnv)
    {e : PyExc} (h : (downloadFileBody title url outputDir env).2 = .error e) :
    (downloadFile title url outputDir env).2 = false := by
  rcases hb : downloadFileBody title url outputDir env with ⟨effs, r⟩
  rw [hb] at h
  cases r with
  | ok b => simp at h
  | error e2 => simp [downloadFile, hb]

/-- C5 (amended): every exception raised inside the fetch body —
network error, HTTP 4xx/5xx status (exactly the statuses for which
`raise_for_status` raises), filesystem error, or any other exception —
is caught inside `download_file` and converted into the `False`
outcome, so the coordinator never raises; every submitted task yields
its own terminal outcome, determined only by its own entry and
environment, and all of them are counted. -/
theorem failures_contained (title url outputDir : List Char) (env : TaskEnv)
    (e : PyExc)
    (h : (downloadFileBody title url outputDir env).2 = Except.error e) :
    (downloadFile title url outputDir env).2 = false ∧
    (∀ tasks : List ((List Char × List Char) × TaskEnv),
      (runOutcomes outputDir tasks).length = tasks.length) ∧
    (∀ (pre post : List ((List Char × List Char) × TaskEnv))
        (tk : (List Char × List Char) × TaskEnv),
      runOutcomes outputDir (pre ++ tk :: post) =
        runOutcomes outputDir pre ++
          (downloadFile tk.1.1 tk.1.2 outputDir tk.2).2 ::
            runOutcomes outputDir post) := by
  refine ⟨downloadFile_catch title url outputDir env h, ?_, ?_⟩
  · intro tasks
    simp [runOutcomes]
  · intro pre post tk
    simp [runOutcomes]

/-- Witness for C5 at a concrete run with a refused connection. -/
theorem failures_contained_witness :
    (downloadFile ("A".toList) ("http://u".toList) ("downloads".toList)
      envRefused).2 = false ∧
    (runOutcomes ("downloads".toList)
      [(("A".toList, "http://u".toList), envRefused)]).length = 1 :=
  ⟨(failures_contained ("A".toList) ("http://u".toList) ("downloads".toList)
      envRefused (.requestExc ("refused".toList)) rfl).1,
   (failures_contained ("A".toList) ("http://u".toList) ("downloads".toList)
      envRefused (.requestExc ("refused".toList)) rfl).2.1
      [(("A".toList, "http://u".toList), envRefused)]⟩

/-- C5 counterexample: a 304 response has a non-2xx status, yet
`raise_for_status` does not raise for it, so `download_file` returns
the success outcome `True`, not a failure outcome. -/
theorem non2xx_success_cex :
    (downloadFile ("A".toList) ("http://u".toList) ("downloads".toList)
      env304).2 = true ∧
    ¬ (200 ≤ 304 ∧ 304 < 300) :=
  ⟨by decide, by decide⟩

/-! ## Claim C9: empty parse stops the run -/

/-- C9: a playlist that parses to zero entries makes `download_m3u`
report and return immediately — no worker pool is started, no outcome
exists, no download is attempted; the condition is a return value of
the total model, not an exception. -/
theorem empty_parse_stops (content outputDir : List Char) (envs : List TaskEnv)
    (h : parse_m3u content = []) :
    download_m3u content outputDir envs = RunResult.noEntries := by
  simp [download_m3u, h]

/-- Witness for C9 at the header-only playlist `#EXTM3U`. -/
theorem empty_parse_stops_witness :
    download_m3u ("#EXTM3U".toList) ("downloads".toList) [] =
      RunResult.noEntries :=
  empty_parse_stops ("#EXTM3U".toList) ("downloads".toList) [] (by decide)

/-! ## Claim C1: outcomes and the final counter -/

/-- C1 (amended): for a nonempty parse with one environment per entry,
`download_m3u` reaches the joined terminal state: the number of
outcomes observed equals the number of entries `total`; the final
`self.downloaded` is the number of `True` outcomes — invariant under
any completion order of the workers — and it equals `total` exactly in
runs where every task returns `True`. -/
theorem run_counts (content outputDir : List Char) (envs : List TaskEnv)
    (hne : parse_m3u content ≠ [])
    (hlen : envs.length = (parse_m3u content).length) :
    download_m3u content outputDir envs =
      RunResult.finished (runOutcomes outputDir ((parse_m3u content).zip envs))
        (finalDownloaded (runOutcomes outputDir ((parse_m3u content).zip envs)))
        (parse_m3u content).length ∧
    (runOutcomes outputDir ((parse_m3u content).zip envs)).length =
      (parse_m3u content).length ∧
    finalDownloaded (runOutcomes outputDir ((parse_m3u content).zip envs)) =
      (runOutcomes outputDir ((parse_m3u content).zip envs)).countP
        (fun b => b) ∧
    (∀ outs2 : List Bool,
      outs2.Perm (runOutcomes outputDir ((parse_m3u content).zip envs)) →
      finalDownloaded outs2 =
        finalDownloaded (runOutcomes outputDir ((parse_m3u content).zip envs))) ∧
    ((∀ o ∈ runOutcomes outputDir ((parse_m3u content).zip envs), o = true) →
      finalDownloaded (runOutcomes outputDir ((parse_m3u content).zip envs)) =
        (parse_m3u content).length) := by
  have hemp : (parse_m3u content).isEmpty = false := List.isEmpty_eq_false.2 hne
  have hsec : (runOutcomes outputDir ((parse_m3u content).zip envs)).length =
      (parse_m3u content).length := by
    simp [runOutcomes, hlen]
  refine ⟨?_, hsec, finalDownloaded_eq_countP _, ?_, ?_⟩
  · simp only [download_m3u, hemp, Bool.false_eq_true, if_false]
  · intro outs2 hperm
    rw [finalDownloaded_eq_countP, finalDownloaded_eq_countP]
    exact hperm.countP_eq _
  · intro hall
    have hc : (runOutcomes outputDir ((parse_m3u content).zip envs)).countP
        (fun b => b) =
        (runOutcomes outputDir ((parse_m3u content).zip envs)).length :=
      List.countP_eq_length.2 (fun a ha => by simpa using hall a ha)
    rw [finalDownloaded_eq_countP, hc, hsec]

/-- Witness for C1 (amended) at a one-entry playlist whose task
succeeds because the file already exists. -/
theorem run_counts_witness :
    download_m3u ("#EXTINF:1,A\nhttp://u".toList) ("downloads".toList)
      [envExists] =
      RunResult.finished
        (runOutcomes ("downloads".toList)
          ((parse_m3u ("#EXTINF:1,A\nhttp://u".toList)).zip [envExists]))
        (finalDownloaded
          (runOutcomes ("downloads".toList)
            ((parse_m3u ("#EXTINF:1,A\nhttp://u".toList)).zip [envExists])))
        (parse_m3u ("#EXTINF:1,A\nhttp://u".toList)).length ∧
    (runOutcomes ("downloads".toList)
      ((parse_m3u ("#EXTINF:1,A\nhttp://u".toList)).zip [envExists])).length =
      (parse_m3u ("#EXTINF:1,A\nhttp://u".toList)).length :=
  ⟨(run_counts ("#EXTINF:1,A\nhttp://u".toList) ("downloads".toList) [envExists]
      (by decide) (by decide)).1,
   (run_counts ("#EXTINF:1,A\nhttp://u".toList) ("downloads".toList) [envExists]
      (by decide) (by decide)).2.1⟩

/-- C1 counterexample: a one-entry run whose single fetch fails — the
coordinator observes 1 outcome but `self.downloaded` ends at 0, not at
`total = 1` as the claim requires. -/
theorem run_counts_cex :
    download_m3u ("#EXTINF:1,A\nhttp://u".toList) ("downloads".toList)
      [envRefused] = RunResult.finished [false] 0 1 ∧
    (0 : Nat) ≠ 1 :=
  ⟨by decide, by decide⟩

/-! ## Claim C8: worker-count validation -/

/-- C8: the worker count consumed by the run is validated into the
range [1, 16]: a numeric input is clamped to at least 1 and at most 16,
an empty or non-numeric input defaults to 4, and validation is a total
function (the `ValueError` is caught, never fatal). -/
theorem workers_validated (raw : List Char) :
    1 ≤ validateWorkers raw ∧ validateWorkers raw ≤ 16 ∧
    (∀ n : Int, pyInt? (strip raw) = some n →
      validateWorkers raw = max 1 (min n 16)) ∧
    ((strip raw).isEmpty = true → validateWorkers raw = 4) ∧
    ((strip raw).isEmpty = false → pyInt? (strip raw) = none →
      validateWorkers raw = 4) := by
  have hval : validateWorkers raw =
      match (if (strip raw).isEmpty then some (4 : Int)
             else pyInt? (strip raw)) with
      | some w => max 1 (min w 16)
      | none => 4 := rfl
  by_cases he : (strip raw).isEmpty = true
  · have hnil : strip raw = [] := List.isEmpty_eq_true.1 he
    have h4 : validateWorkers raw = 4 := by
      rw [hval, if_pos he]
      decide
    refine ⟨by omega, by omega, ?_, fun _ => h4, fun hf _ => h4⟩
    · intro n hn
      rw [hnil] at hn
      simp [pyInt?, pyDigits] at hn
  · rw [Bool.not_eq_true] at he
    cases hp : pyInt? (strip raw) with
    | some n =>
      have hv : validateWorkers raw = max 1 (min n 16) := by
        rw [hval, if_neg (by simp [he]), hp]
      refine ⟨?_, ?_, ?_, ?_, ?_⟩
      · rw [hv]; exact le_max_left 1 _
      · rw [hv]; exact max_le (by norm_num) (min_le_right _ _)
      · intro n' hn'
        obtain rfl : n = n' := by simpa using hn'
        exact hv
      · intro habs
        rw [habs] at he
        cases he
      · intro _ habs
        simp at habs
    | none =>
      have hv : validateWorkers raw = 4 := by
        rw [hval, if_neg (by simp [he]), hp]
      refine ⟨by omega, by omega, ?_, fun habs => ?_, fun _ _ => hv⟩
      · intro n hn
        simp at hn
      · rw [habs] at he
        cases he

/-- Witness for C8 at the concrete inputs `"99"` (clamped to 16) and
the validation range. -/
theorem workers_validated_witness :
    1 ≤ validateWorkers ("99".toList) ∧
    validateWorkers ("99".toList) ≤ 16 ∧
    validateWorkers ("99".toList) = 16 := by
  refine ⟨(workers_validated ("99".toList)).1,
    (workers_validated ("99".toList)).2.1, ?_⟩
  have h := (workers_validated ("99".toList)).2.2.1 99 (by decide)
  rw [h]
  decide
